import Mathlib

/-!
# tempodb: asynchronous buffering client

A shallow embedding of `tempodb.go`.  The Go program is concurrent: the caller
goroutine, the goroutines started by `NewClient` (each running `worker`) and the
anonymous goroutine started by `Finish` share one buffered channel and one
`sync.WaitGroup`.  The embedding is an interleaving semantics: every
synchronising statement of the source is one atomic step of one goroutine, and
an execution is a list of such steps (`Action`s) applied to a `Client` state.

* a step that cannot be taken in the current state (a goroutine blocked on the
  channel, on `wg.Wait()` or on the unbuffered `done` channel) yields `none`;
* a run-time panic stops the whole process: it sets `crashed`, after which no
  step is enabled;
* what the environment decides is carried by the action: the instant returned
  by `time.Now()`, the `error` returned by the TempoDB write, and the moment the
  timer of `time.After(timeout)` fires;
* the channel behaves as the Go language says: a send on a closed channel
  panics and a send on a full one blocks, a receive takes the oldest element
  and reports a closed channel once it is empty;
* the wait group is the `sync.WaitGroup` of the Go standard library, with its
  counter, its count of waiters, its semaphore and its panics: `WaitGroup.Add`,
  `WaitGroup.release`, and the two steps of `Wait` in `Client.finishGo`;
* the number of workers and the capacity of the channel, constants of the
  source, are parameters of `newClientWith`; `NewClient` takes the values of
  the source.
-/

namespace Tempodb

/-- An instant of `time.Time`, as a number of ticks. -/
abbrev Time := Nat

/-- A Go `float64`, carried as its 64-bit pattern; the program never computes
with the value, it only stores it and hands it on. -/
abbrev float64 := Nat

/-- The Go `error` interface: `none` is `nil`, `some msg` an error whose
`Error()` text is `msg`. -/
abbrev error := Option String

/-- size of buffer channel -/
def bufSize : Nat := 1000

/-- number of workers -/
def workers : Nat := 3

/-- Type point holds a single data point as a time and value pair for a data
series.  The fields start from Go zero values, so a composite literal that
leaves a string field out leaves it empty. -/
structure point where
  id : String := ""
  key : String := ""
  time : Time
  value : float64
deriving DecidableEq, Repr

/-- The `tempodb.DataPoint` of the TempoDB package: a timestamp and a value. -/
structure DataPoint where
  Ts : Time
  V : float64
deriving DecidableEq, Repr

/-- One call received by the TempoDB client `c.c`: the method and its
arguments. -/
inductive Call where
  | WriteKey (key : String) (data : List DataPoint)
  | WriteId (id : String) (data : List DataPoint)
deriving DecidableEq, Repr

/-- The data argument of a backend call. -/
def Call.data : Call → List DataPoint
  | Call.WriteKey _ d => d
  | Call.WriteId _ d => d

/-- Where a goroutine started by `go c.worker()` stands in `worker`. -/
inductive WorkerPc where
  /-- started by `NewClient`, `c.wg.Add(1)` not yet executed -/
  | spawned
  /-- at `p, ok := <-c.points` -/
  | receiving
  /-- holds `p`, at `c.send(p)` -/
  | sending (p : point)
  /-- took the `!ok` branch, at `return` with the deferred `c.wg.Done()` -/
  | returning
  /-- inside `Add` or `Done`, which has brought the counter to zero while `w`
  waiters were registered and still has to wake them; `last` tells that the
  call is the deferred `c.wg.Done()`, after which the goroutine ends -/
  | releasing (w : Nat) (last : Bool)
  /-- the goroutine has ended -/
  | exited
deriving DecidableEq, Repr

/-- Where the anonymous goroutine of `Finish` stands. -/
inductive CloserPc where
  /-- no call of `Finish` so far -/
  | absent
  /-- at `close(c.points)` -/
  | closing
  /-- at `c.wg.Wait()` -/
  | waiting
  /-- inside `c.wg.Wait()`, registered as a waiter and asleep on the semaphore -/
  | parked
  /-- at `done <- true` -/
  | signalling
  /-- the goroutine has ended -/
  | exited
deriving DecidableEq, Repr

/-- Where the caller of `Finish` stands. -/
inductive FinishPc where
  /-- no call of `Finish` so far -/
  | idle
  /-- blocked in the `select` -/
  | selecting
  /-- the call of `Finish` has returned `b` -/
  | returned (b : Bool)
deriving DecidableEq, Repr

/-- The `sync.WaitGroup` of the Go standard library: `counter` and `waiters`
are the two halves of its state word, `sema` is the semaphore on which the
waiters sleep.  The counter never goes below zero: `Add` panics first. -/
structure WaitGroup where
  counter : Nat
  waiters : Nat
  sema : Nat
deriving DecidableEq, Repr

/-- How the first, atomic part of `(*WaitGroup).Add` ends. -/
inductive AddResult where
  /-- one of the panics of `Add` -/
  | panic
  /-- the call has returned -/
  | done (wg : WaitGroup)
  /-- the counter has reached zero with waiters registered: the second part of
  `Add` is still to run -/
  | wake (wg : WaitGroup)
deriving DecidableEq, Repr

/-- The first part of `(*WaitGroup).Add`: the atomic addition to the state and
the tests on the values it returns.  The call panics on a negative counter
("sync: negative WaitGroup counter") and when a positive `delta` lifts the
counter from zero while waiters are registered ("sync: WaitGroup misuse: Add
called concurrently with Wait"); it returns when the counter is positive or
nobody waits. -/
def WaitGroup.Add (wg : WaitGroup) (delta : Int) : AddResult :=
  let v : Int := (wg.counter : Int) + delta
  if v < 0 then AddResult.panic
  else if wg.waiters ≠ 0 ∧ 0 < delta ∧ v = delta then AddResult.panic
  else if 0 < v ∨ wg.waiters = 0 then AddResult.done { wg with counter := v.toNat }
  else AddResult.wake { wg with counter := v.toNat }

/-- The second part of `(*WaitGroup).Add`, after the counter has reached zero
with `w` waiters: the state must still be what the first part left ("sync:
WaitGroup misuse: Add called concurrently with Wait" otherwise, `none` here);
the state is reset and the semaphore released once for each waiter. -/
def WaitGroup.release (wg : WaitGroup) (w : Nat) : Option WaitGroup :=
  if wg.counter ≠ 0 ∨ wg.waiters ≠ w then none
  else some { counter := 0, waiters := 0, sema := wg.sema + w }

/-- Type Client holds a connection to a TempoDB database, together with the
goroutines that work on it.

`points`, `cap` and `closed` are the buffered channel `c.points` (oldest
element first), `wg` is `c.wg`, `Debug` the public flag.  `calls`
is what the TempoDB client `c.c` has been asked to write so far, `logs` the
lines printed through `log.Println`.  `ws`, `closer` and `caller` are the
program counters of the goroutines. -/
structure Client where
  points : List point
  cap : Nat
  closed : Bool
  wg : WaitGroup
  Debug : Bool
  calls : List Call
  logs : List String
  ws : List WorkerPc
  closer : CloserPc
  caller : FinishPc
  crashed : Bool
deriving DecidableEq, Repr

/-- The body of `NewClient` for an arbitrary number of workers and channel
capacity: an open, empty channel and `n` goroutines about to run `worker`. -/
def newClientWith (n cap : Nat) : Client :=
  { points := [], cap := cap, closed := false,
    wg := { counter := 0, waiters := 0, sema := 0 }, Debug := false,
    calls := [], logs := [], ws := List.replicate n WorkerPc.spawned,
    closer := CloserPc.absent, caller := FinishPc.idle, crashed := false }

/-- NewClient creates a new client.  The credentials only reach the TempoDB
package. -/
def NewClient (_key _secret : String) : Client :=
  newClientWith workers bufSize

/-- The channel send `c.points <- p`: panics on a closed channel, blocks while
the buffer is full, appends otherwise. -/
def Client.chansend (c : Client) (p : point) : Option Client :=
  if c.crashed then none
  else if c.closed then some { c with crashed := true }
  else if c.points.length < c.cap then some { c with points := c.points ++ [p] }
  else none

/-- Send posts a value to a series by its key. -/
def Client.Send (c : Client) (key : String) (value : float64) (now : Time) :
    Option Client :=
  c.chansend { key := key, time := now, value := value }

/-- SendId posts a value to a series by its id. -/
def Client.SendId (c : Client) (id : String) (value : float64) (now : Time) :
    Option Client :=
  c.chansend { id := id, time := now, value := value }

/-- The line `log.Println` prints for a failed write. -/
def logLine (msg : String) : String :=
  "can\x27t write data point: " ++ msg

/-- send actually sends a data point.  `err` is what the TempoDB call
returns. -/
def Client.send (c : Client) (p : point) (err : error) : Client :=
  let data : List DataPoint := [{ Ts := p.time, V := p.value }]
  let c1 : Client :=
    if p.id = "" then { c with calls := c.calls ++ [Call.WriteKey p.key data] }
    else { c with calls := c.calls ++ [Call.WriteId p.id data] }
  match c1.Debug, err with
  | true, some msg => { c1 with logs := c1.logs ++ [logLine msg] }
  | _, _ => c1

/-- One step of worker goroutine `i`: worker sends each data point queued in
channel to TempoDB.  `err` is the outcome of the backend write, used when the
step is the call of `send`.  The function starts with `c.wg.Add(1)` and ends
with the deferred `c.wg.Done()`, which is `c.wg.Add(-1)`. -/
def Client.worker (c : Client) (i : Nat) (err : error) : Option Client :=
  if c.crashed then none
  else
    match c.ws.get? i with
    | none => none
    | some WorkerPc.spawned =>
        match c.wg.Add 1 with
        | AddResult.panic => some { c with crashed := true }
        | AddResult.done wg => some { c with wg := wg, ws := c.ws.set i WorkerPc.receiving }
        | AddResult.wake wg =>
            some { c with wg := wg, ws := c.ws.set i (WorkerPc.releasing wg.waiters false) }
    | some WorkerPc.receiving =>
        match c.points with
        | p :: rest =>
            some { c with points := rest, ws := c.ws.set i (WorkerPc.sending p) }
        | [] =>
            if c.closed then some { c with ws := c.ws.set i WorkerPc.returning }
            else none
    | some (WorkerPc.sending p) =>
        some { c.send p err with ws := c.ws.set i WorkerPc.receiving }
    | some WorkerPc.returning =>
        match c.wg.Add (-1) with
        | AddResult.panic => some { c with crashed := true }
        | AddResult.done wg => some { c with wg := wg, ws := c.ws.set i WorkerPc.exited }
        | AddResult.wake wg =>
            some { c with wg := wg, ws := c.ws.set i (WorkerPc.releasing wg.waiters true) }
    | some (WorkerPc.releasing w last) =>
        match c.wg.release w with
        | none => some { c with crashed := true }
        | some wg =>
            some { c with wg := wg,
                          ws := c.ws.set i (if last then WorkerPc.exited else WorkerPc.receiving) }
    | some WorkerPc.exited => none

/-- The call of `Finish` up to its `select`: the goroutine is started and the
caller blocks.  The model follows one call of `Finish`. -/
def Client.Finish (c : Client) : Option Client :=
  if c.crashed then none
  else
    match c.closer with
    | CloserPc.absent =>
        some { c with closer := CloserPc.closing, caller := FinishPc.selecting }
    | _ => none

/-- One step of the goroutine started by `Finish`: `close(c.points)`, then
`c.wg.Wait()`, then `done <- true`, which needs the caller in the `select` and
makes `Finish` return `true`.

`(*WaitGroup).Wait` returns at once when it reads a zero counter; otherwise it
adds itself to the waiters and sleeps on the semaphore.  Once the semaphore has
been released it wakes, and panics unless the state is zero ("sync: WaitGroup
is reused before previous Wait has returned"). -/
def Client.finishGo (c : Client) : Option Client :=
  if c.crashed then none
  else
    match c.closer with
    | CloserPc.closing =>
        if c.closed then some { c with crashed := true }
        else some { c with closed := true, closer := CloserPc.waiting }
    | CloserPc.waiting =>
        if c.wg.counter = 0 then some { c with closer := CloserPc.signalling }
        else
          some { c with wg := { c.wg with waiters := c.wg.waiters + 1 },
                        closer := CloserPc.parked }
    | CloserPc.parked =>
        if c.wg.sema = 0 then none
        else if c.wg.counter ≠ 0 ∨ c.wg.waiters ≠ 0 then some { c with crashed := true }
        else
          some { c with wg := { c.wg with sema := c.wg.sema - 1 },
                        closer := CloserPc.signalling }
    | CloserPc.signalling =>
        match c.caller with
        | FinishPc.selecting =>
            some { c with closer := CloserPc.exited, caller := FinishPc.returned true }
        | _ => none
    | _ => none

/-- The case `<-time.After(timeout)` of the `select` in `Finish`: the timer
fires while the caller still waits, and `Finish` returns `false`. -/
def Client.finishTimeout (c : Client) : Option Client :=
  if c.crashed then none
  else
    match c.caller with
    | FinishPc.selecting => some { c with caller := FinishPc.returned false }
    | _ => none

/-- An assignment to the public field `Debug`. -/
def Client.setDebug (c : Client) (b : Bool) : Option Client :=
  if c.crashed then none else some { c with Debug := b }

/-- The atomic steps of an execution. -/
inductive Action where
  | Send (key : String) (value : float64) (now : Time)
  | SendId (id : String) (value : float64) (now : Time)
  | setDebug (b : Bool)
  | Finish
  | timeout
  | closer
  | worker (i : Nat) (err : error)
deriving DecidableEq, Repr

/-- One step of the system. -/
def step (c : Client) : Action → Option Client
  | Action.Send key value now => c.Send key value now
  | Action.SendId id value now => c.SendId id value now
  | Action.setDebug b => c.setDebug b
  | Action.Finish => c.Finish
  | Action.timeout => c.finishTimeout
  | Action.closer => c.finishGo
  | Action.worker i err => c.worker i err

/-- An execution: the steps of `tr` from left to right; `none` when one of them
cannot be taken. -/
def run (c : Client) : List Action → Option Client
  | [] => some c
  | a :: tr => (step c a).bind (fun c1 => run c1 tr)

/-! ## Observations on states and executions -/

/-- The backend call that `send` issues for a point. -/
def callOf (p : point) : Call :=
  if p.id = "" then Call.WriteKey p.key [{ Ts := p.time, V := p.value }]
  else Call.WriteId p.id [{ Ts := p.time, V := p.value }]

/-- The point a worker has taken from the channel and not yet passed to the
backend. -/
def WorkerPc.hand : WorkerPc → List point
  | WorkerPc.sending p => [p]
  | _ => []

/-- Whether the goroutine of `Finish` has executed `close(c.points)`. -/
def CloserPc.hasClosed : CloserPc → Bool
  | CloserPc.absent => false
  | CloserPc.closing => false
  | _ => true

/-- The points held by workers, in the order of the workers. -/
def inHand : List WorkerPc → List point
  | [] => []
  | w :: ws => w.hand ++ inHand ws

/-- The points accepted and not yet passed to the backend: those in a worker's
hand and those in the channel. -/
def Client.pending (c : Client) : List point := inHand c.ws ++ c.points

/-- The points that the `Send` and `SendId` steps of an execution put on the
channel, in order. -/
def submitted : List Action → List point
  | [] => []
  | Action.Send key value now :: tr =>
      { key := key, time := now, value := value } :: submitted tr
  | Action.SendId id value now :: tr =>
      { id := id, time := now, value := value } :: submitted tr
  | _ :: tr => submitted tr

/-- A call of `Send` or `SendId`. -/
def Action.isSend : Action → Bool
  | Action.Send _ _ _ => true
  | Action.SendId _ _ _ => true
  | _ => false

/-- A step of worker `i`. -/
def Action.byWorker (i : Nat) : Action → Bool
  | Action.worker j _ => decide (j = i)
  | _ => false

/-- The points that the steps of worker `i` take off the channel during an
execution from `c`, in order: what is missing from the channel after each of
its steps. -/
def received (i : Nat) (c : Client) : List Action → List point
  | [] => []
  | a :: tr =>
    match step c a with
    | none => []
    | some c1 =>
        (if a.byWorker i then c.points.take (c.points.length - c1.points.length) else [])
          ++ received i c1 tr

/-- The backend calls made by the steps of worker `i` during an execution from
`c`, in order: what the backend has recorded in addition after each of its
steps. -/
def attempted (i : Nat) (c : Client) : List Action → List Call
  | [] => []
  | a :: tr =>
    match step c a with
    | none => []
    | some c1 =>
        (if a.byWorker i then c1.calls.drop c.calls.length else []) ++ attempted i c1 tr

/-- The point worker `i` currently holds. -/
def Client.handOf (c : Client) (i : Nat) : List point :=
  match c.ws.get? i with
  | some w => w.hand
  | none => []

/-! ## Some executions -/

/-- An execution in which the goroutine of `Finish` runs before any worker has
executed `c.wg.Add(1)`: one point is submitted, `Finish` is called, and its
goroutine closes the channel, passes `c.wg.Wait()` on the zero counter and
signals `done`. -/
def earlyTrace : List Action :=
  [Action.Send "a" 1 0, Action.Finish, Action.closer, Action.closer, Action.closer]

/-- An execution in which the timer of `Finish` fires before its goroutine has
closed the channel, and a point is submitted after `Finish` has returned. -/
def lateSendTrace : List Action :=
  [Action.Finish, Action.timeout, Action.Send "a" 1 0]

/-- An execution with one worker: three submissions; the first is written, and
the write fails; the second is written; the third is taken off the channel. -/
def fifoTrace : List Action :=
  [Action.Send "a" 1 0, Action.SendId "b" 2 1, Action.worker 0 none, Action.worker 0 none,
   Action.Send "c" 3 2, Action.worker 0 (some "x"), Action.worker 0 none,
   Action.worker 0 none, Action.worker 0 none]

/-- The state at the end of `fifoTrace` with a channel of capacity 2. -/
def fifoFinal : Client :=
  { points := [], cap := 2, closed := false,
    wg := { counter := 1, waiters := 0, sema := 0 }, Debug := false,
    calls := [Call.WriteKey "a" [{ Ts := 0, V := 1 }], Call.WriteId "b" [{ Ts := 1, V := 2 }]],
    logs := [],
    ws := [WorkerPc.sending { id := "", key := "c", time := 2, value := 3 }],
    closer := CloserPc.absent, caller := FinishPc.idle, crashed := false }

/-- The start of two executions of the client of the source: one point is
submitted, worker 0 executes `c.wg.Add(1)`, `Finish` is called, its goroutine
closes the channel and goes to sleep in `c.wg.Wait()` on the counter 1; worker
0 takes the point, writes it, finds the channel closed and empty, and its
deferred `c.wg.Done()` brings the counter to zero. -/
def waitTrace : List Action :=
  [Action.Send "a" 1 0, Action.worker 0 none, Action.Finish, Action.closer, Action.closer,
   Action.worker 0 none, Action.worker 0 none, Action.worker 0 none, Action.worker 0 none]

/-- After `waitTrace`, worker 0 wakes the waiter and ends, worker 1 starts and
executes its `c.wg.Add(1)`, and only then does the goroutine of `Finish` wake
up in `c.wg.Wait()`. -/
def reuseTrace : List Action :=
  waitTrace ++ [Action.worker 0 none, Action.worker 1 none, Action.closer]

/-- After `waitTrace`, worker 1 starts and executes its `c.wg.Add(1)` before
worker 0 has woken the waiter. -/
def misuseTrace : List Action :=
  waitTrace ++ [Action.worker 1 none]

/-- An execution of the client of the source in which two points are
submitted, `Finish` is called, and its goroutine runs to its end before any
worker has executed `c.wg.Add(1)`. -/
def unsentTrace : List Action :=
  [Action.Send "a" 1 0, Action.SendId "b" 2 1, Action.Finish, Action.closer, Action.closer,
   Action.closer]

/-! ## Executions -/

theorem step_not_crashed {c c1 : Client} {a : Action} (h : step c a = some c1) :
    c.crashed = false := by
  cases hc : c.crashed
  · rfl
  · cases a <;>
      simp [step, Client.Send, Client.SendId, Client.chansend, Client.setDebug, Client.Finish,
        Client.finishTimeout, Client.finishGo, Client.worker, hc] at h

theorem run_append (c : Client) (tr1 tr2 : List Action) :
    run c (tr1 ++ tr2) = (run c tr1).bind (fun c1 => run c1 tr2) := by
  induction tr1 generalizing c with
  | nil => simp [run]
  | cons a tr ih =>
    simp only [List.cons_append, run]
    cases step c a with
    | none => simp
    | some c1 => simpa using ih c1

theorem run_snoc {c c2 : Client} {tr : List Action} {a : Action}
    (h : run c (tr ++ [a]) = some c2) :
    ∃ c1, run c tr = some c1 ∧ step c1 a = some c2 := by
  rw [run_append] at h
  cases h1 : run c tr with
  | none => simp [h1] at h
  | some c1 =>
    refine ⟨c1, rfl, ?_⟩
    simp only [h1, Option.some_bind, run] at h
    cases h2 : step c1 a with
    | none => simp [h2] at h
    | some c3 => simpa [h2] using h

/-- Induction over the states an execution from `c0` reaches without a panic. -/
theorem reach_induction {P : List Action → Client → Prop} {c0 : Client}
    (h0 : P [] c0)
    (hs : ∀ tr c a c1, run c0 tr = some c → c.crashed = false → P tr c →
      step c a = some c1 → c1.crashed = false → P (tr ++ [a]) c1) :
    ∀ tr c, run c0 tr = some c → c.crashed = false → P tr c := by
  intro tr
  induction tr using List.reverseRecOn with
  | nil =>
    intro c h _
    simp only [run, Option.some.injEq] at h
    subst h; exact h0
  | append_singleton tr a ih =>
    intro c2 h hc2
    obtain ⟨c1, h1, h2⟩ := run_snoc h
    have hc1 := step_not_crashed h2
    exact hs tr c1 a c2 h1 hc1 (ih c1 h1 hc1) h2 hc2

/-! ## Frames of the steps -/

theorem get?_split {α : Type} {l : List α} {i : Nat} {x : α} (h : l.get? i = some x) :
    ∃ l1 l2, l = l1 ++ x :: l2 ∧ l1.length = i ∧ ∀ y, l.set i y = l1 ++ y :: l2 := by
  induction l generalizing i with
  | nil => simp at h
  | cons a l ih =>
    cases i with
    | zero =>
      simp at h; subst h
      exact ⟨[], l, rfl, rfl, fun y => rfl⟩
    | succ i =>
      simp at h
      obtain ⟨l1, l2, e, hl, hset⟩ := ih (by simpa using h)
      refine ⟨a :: l1, l2, by simp [e], by simp [hl], fun y => ?_⟩
      simp [List.set, hset y]

@[simp] theorem inHand_append (l1 l2 : List WorkerPc) :
    inHand (l1 ++ l2) = inHand l1 ++ inHand l2 := by
  induction l1 with
  | nil => rfl
  | cons w l ih => simp [inHand, ih]

@[simp] theorem inHand_cons (w : WorkerPc) (l : List WorkerPc) :
    inHand (w :: l) = w.hand ++ inHand l := rfl

@[simp] theorem inHand_nil : inHand [] = [] := rfl

theorem submitted_append (tr1 tr2 : List Action) :
    submitted (tr1 ++ tr2) = submitted tr1 ++ submitted tr2 := by
  induction tr1 with
  | nil => rfl
  | cons a tr ih => cases a <;> simp [submitted, ih]

theorem send_calls (c : Client) (p : point) (err : error) :
    (c.send p err).calls = c.calls ++ [callOf p] := by
  unfold Client.send callOf
  cases hD : c.Debug <;> cases err <;> split_ifs <;> simp_all

theorem send_logs (c : Client) (p : point) (err : error) :
    (c.send p err).logs =
      if c.Debug = true then c.logs ++ (err.map logLine).toList else c.logs := by
  unfold Client.send
  cases hD : c.Debug <;> cases err <;> split_ifs <;> simp_all

/-- Apart from the backend record and the log, `send` changes nothing. -/
theorem send_frame (c : Client) (p : point) (err : error) :
    c.send p err = { c with calls := (c.send p err).calls, logs := (c.send p err).logs } := by
  unfold Client.send
  cases hD : c.Debug <;> cases err <;> split_ifs <;> simp_all

/-- The outcome of the backend write shows in the log only. -/
theorem send_err_irrelevant (c : Client) (p : point) (err : error) :
    { c.send p err with logs := [] } = { c.send p none with logs := [] } := by
  rw [send_frame c p err, send_frame c p none, send_calls, send_calls]

theorem worker_err_irrelevant (c : Client) (i : Nat) (err : error) :
    (c.worker i err).map (fun d => { d with logs := [] }) =
      (c.worker i none).map (fun d => { d with logs := [] }) := by
  by_cases hc : c.crashed = true
  · simp [Client.worker, hc]
  · rw [Client.worker, Client.worker, if_neg hc, if_neg hc]
    cases hg : c.ws.get? i with
    | none => rfl
    | some w =>
      cases w with
      | sending p =>
        simp only [Option.map_some', Option.some.injEq]
        have := send_err_irrelevant c p err
        simp only [Client.mk.injEq] at this ⊢
        simp [this]
      | spawned | receiving | returning | releasing _ _ | exited => rfl


/-- Steps other than worker steps and sends leave the channel buffer, the
workers and the backend record alone. -/
theorem step_frame {c c1 : Client} {a : Action} (h : step c a = some c1)
    (h1 : a.isSend = false) (h2 : ∀ i err, a ≠ Action.worker i err) :
    c1.points = c.points ∧ c1.ws = c.ws ∧ c1.calls = c.calls := by
  have hc := step_not_crashed h
  cases a with
  | Send key value now => simp [Action.isSend] at h1
  | SendId id value now => simp [Action.isSend] at h1
  | setDebug b =>
    simp only [step, Client.setDebug, hc, Bool.false_eq_true, if_false, Option.some.injEq] at h
    subst h; simp
  | Finish =>
    simp only [step, Client.Finish, hc, Bool.false_eq_true, if_false] at h
    cases hcl : c.closer <;> rw [hcl] at h <;> simp only [Option.some.injEq] at h <;>
      try contradiction
    subst h; simp
  | timeout =>
    simp only [step, Client.finishTimeout, hc, Bool.false_eq_true, if_false] at h
    cases hcl : c.caller <;> rw [hcl] at h <;> simp only [Option.some.injEq] at h <;>
      try contradiction
    subst h; simp
  | closer =>
    simp only [step, Client.finishGo, hc, Bool.false_eq_true, if_false] at h
    cases hcl : c.closer <;> rw [hcl] at h <;> simp only at h <;> try contradiction
    · by_cases hcd : c.closed = true
      · rw [if_pos hcd] at h
        simp only [Option.some.injEq] at h; subst h; simp
      · rw [if_neg hcd] at h
        simp only [Option.some.injEq] at h; subst h; simp
    · by_cases hwg : c.wg.counter = 0
      · rw [if_pos hwg] at h
        simp only [Option.some.injEq] at h; subst h; simp
      · rw [if_neg hwg] at h
        simp only [Option.some.injEq] at h; subst h; simp
    · by_cases hs : c.wg.sema = 0
      · rw [if_pos hs] at h; contradiction
      · rw [if_neg hs] at h
        by_cases hz : c.wg.counter ≠ 0 ∨ c.wg.waiters ≠ 0
        · rw [if_pos hz] at h
          simp only [Option.some.injEq] at h; subst h; simp
        · rw [if_neg hz] at h
          simp only [Option.some.injEq] at h; subst h; simp
    · cases hca : c.caller <;> rw [hca] at h <;> simp only [Option.some.injEq] at h <;>
        try contradiction
      subst h; simp
  | worker i err => exact absurd rfl (h2 i err)

/-- What a channel send does to the buffer, the workers and the backend
record. -/
theorem chansend_frame {c c1 : Client} {p : point} (h : c.chansend p = some c1) :
    c1.ws = c.ws ∧ c1.calls = c.calls ∧
      (c1.points = c.points ∨ c1.points = c.points ++ [p]) ∧
      (c1.crashed = false → c1.points = c.points ++ [p]) := by
  unfold Client.chansend at h
  split_ifs at h with hc hcl hlen
  · simp only [Option.some.injEq] at h; subst h; simp
  · simp only [Option.some.injEq] at h; subst h; simp

/-- What a worker step does to the channel, to the backend record and to the
point the worker holds: nothing, or it takes the oldest point off the channel,
or it makes the call for the point it holds. -/
theorem worker_obs {c c1 : Client} {i : Nat} {err : error} (h : c.worker i err = some c1) :
    ∃ l1 w w1 l2, c.ws = l1 ++ w :: l2 ∧ l1.length = i ∧ c1.ws = l1 ++ w1 :: l2 ∧
      ((w.hand = [] ∧ w1.hand = [] ∧ c1.points = c.points ∧ c1.calls = c.calls) ∨
       (w.hand = [] ∧ ∃ p, w1.hand = [p] ∧ c.points = p :: c1.points ∧ c1.calls = c.calls) ∨
       (∃ p, w.hand = [p] ∧ w1.hand = [] ∧ c1.points = c.points ∧
          c1.calls = c.calls ++ [callOf p])) := by
  have hc : ¬ c.crashed = true := by
    intro hc; simp [Client.worker, hc] at h
  rw [Client.worker, if_neg hc] at h
  cases hw : c.ws.get? i with
  | none => rw [hw] at h; simp at h
  | some w =>
    obtain ⟨l1, l2, e, hl, hset⟩ := get?_split hw
    rw [hw] at h
    have silent : ∀ (d : Client) (w1 : WorkerPc), some d = some c1 → w.hand = [] →
        w1.hand = [] → d.ws = l1 ++ w1 :: l2 → d.points = c.points → d.calls = c.calls →
        ∃ l1 w w1 l2, c.ws = l1 ++ w :: l2 ∧ l1.length = i ∧ c1.ws = l1 ++ w1 :: l2 ∧
          ((w.hand = [] ∧ w1.hand = [] ∧ c1.points = c.points ∧ c1.calls = c.calls) ∨
           (w.hand = [] ∧ ∃ p, w1.hand = [p] ∧ c.points = p :: c1.points ∧
              c1.calls = c.calls) ∨
           (∃ p, w.hand = [p] ∧ w1.hand = [] ∧ c1.points = c.points ∧
              c1.calls = c.calls ++ [callOf p])) := by
      intro d w1 h6 h1 h2 h3 h4 h5
      simp only [Option.some.injEq] at h6
      subst h6
      exact ⟨l1, w, w1, l2, e, hl, h3, Or.inl ⟨h1, h2, h4, h5⟩⟩
    cases w with
    | spawned =>
      simp only at h
      cases hA : c.wg.Add 1 with
      | panic => rw [hA] at h; dsimp only at h; exact silent _ WorkerPc.spawned h rfl rfl e rfl rfl
      | done wg => rw [hA] at h; dsimp only at h; exact silent _ WorkerPc.receiving h rfl rfl (hset _) rfl rfl
      | wake wg =>
        rw [hA] at h; dsimp only at h
        exact silent _ (WorkerPc.releasing wg.waiters false) h rfl rfl (hset _) rfl rfl
    | receiving =>
      simp only at h
      obtain hp | ⟨p, rest, hp⟩ : c.points = [] ∨ ∃ p rest, c.points = p :: rest := by
        cases c.points <;> simp
      · by_cases hcl : c.closed = true
        · have h1 : some { c with ws := c.ws.set i WorkerPc.returning } = some c1 := by
            rw [← h, hp]; simp [hcl]
          exact silent _ WorkerPc.returning h1 rfl rfl (hset _) rfl rfl
        · rw [hp] at h; simp [hcl] at h
      · have h1 : some { c with points := rest, ws := c.ws.set i (WorkerPc.sending p) } =
            some c1 := by
          rw [← h, hp]
        simp only [Option.some.injEq] at h1
        subst h1
        exact ⟨l1, _, WorkerPc.sending p, l2, e, hl, hset _,
          Or.inr (Or.inl ⟨rfl, p, rfl, hp, rfl⟩)⟩
    | sending p =>
      simp only [Option.some.injEq] at h
      subst h
      refine ⟨l1, _, WorkerPc.receiving, l2, e, hl, hset _,
        Or.inr (Or.inr ⟨p, rfl, rfl, ?_, ?_⟩)⟩
      · show (c.send p err).points = c.points
        rw [send_frame]
      · exact send_calls c p err
    | returning =>
      simp only at h
      cases hA : c.wg.Add (-1) with
      | panic => rw [hA] at h; dsimp only at h; exact silent _ WorkerPc.returning h rfl rfl e rfl rfl
      | done wg => rw [hA] at h; dsimp only at h; exact silent _ WorkerPc.exited h rfl rfl (hset _) rfl rfl
      | wake wg =>
        rw [hA] at h; dsimp only at h
        exact silent _ (WorkerPc.releasing wg.waiters true) h rfl rfl (hset _) rfl rfl
    | releasing w last =>
      simp only at h
      cases hR : c.wg.release w with
      | none => rw [hR] at h; dsimp only at h; exact silent _ (WorkerPc.releasing w last) h rfl rfl e rfl rfl
      | some wg =>
        rw [hR] at h; dsimp only at h
        refine silent _ (if last then WorkerPc.exited else WorkerPc.receiving) h rfl ?_
          (hset _) rfl rfl
        cases last <;> rfl
    | exited => simp at h

/-! ## One worker: order -/

/-- With one worker, what the backend has received followed by what is still
pending is the sequence of submissions. -/
theorem fifo_inv {cap : Nat} {tr : List Action} {c : Client}
    (h : run (newClientWith 1 cap) tr = some c) (hc : c.crashed = false) :
    c.ws.length = 1 ∧ c.calls ++ c.pending.map callOf = (submitted tr).map callOf := by
  refine reach_induction
    (P := fun tr c => c.ws.length = 1 ∧ c.calls ++ c.pending.map callOf = (submitted tr).map callOf)
    ?_ ?_ tr c h hc
  · simp [newClientWith, Client.pending, submitted, WorkerPc.hand]
  · intro tr c a c1 _ _ hP hs hc1
    obtain ⟨hlen, heq⟩ := hP
    rw [submitted_append, List.map_append, ← heq]
    cases a with
    | Send key value now =>
      obtain ⟨h1, h2, -, h4⟩ := chansend_frame hs
      simp [Client.pending, h1, h2, h4 hc1, hlen, submitted]
    | SendId id value now =>
      obtain ⟨h1, h2, -, h4⟩ := chansend_frame hs
      simp [Client.pending, h1, h2, h4 hc1, hlen, submitted]
    | setDebug b =>
      obtain ⟨h1, h2, h3⟩ := step_frame hs rfl (by simp)
      simp [Client.pending, h1, h2, h3, hlen, submitted]
    | Finish =>
      obtain ⟨h1, h2, h3⟩ := step_frame hs rfl (by simp)
      simp [Client.pending, h1, h2, h3, hlen, submitted]
    | timeout =>
      obtain ⟨h1, h2, h3⟩ := step_frame hs rfl (by simp)
      simp [Client.pending, h1, h2, h3, hlen, submitted]
    | closer =>
      obtain ⟨h1, h2, h3⟩ := step_frame hs rfl (by simp)
      simp [Client.pending, h1, h2, h3, hlen, submitted]
    | worker i err =>
      obtain ⟨l1, w, w1, l2, e, -, e1, hcase⟩ := worker_obs hs
      have hl : l1 = [] ∧ l2 = [] := by
        rw [e] at hlen
        simp only [List.length_append, List.length_cons] at hlen
        constructor
        · apply List.eq_nil_of_length_eq_zero; omega
        · apply List.eq_nil_of_length_eq_zero; omega
      obtain ⟨rfl, rfl⟩ := hl
      simp only [List.nil_append] at e e1
      rcases hcase with ⟨hw, hw1, hp, hcalls⟩ | ⟨hw, p, hw1, hp, hcalls⟩ | ⟨p, hw, hw1, hp, hcalls⟩
      · simp [Client.pending, e, e1, submitted, hw, hw1, hp, hcalls]
      · simp [Client.pending, e, e1, submitted, hw, hw1, hp, hcalls]
      · simp [Client.pending, e, e1, submitted, hw, hw1, hp, hcalls]

/-! ## The view of one worker -/

theorem get?_middle {α : Type} (l1 l2 : List α) (x : α) :
    (l1 ++ x :: l2).get? l1.length = some x := by
  induction l1 with
  | nil => rfl
  | cons a l ih => simpa using ih

theorem get?_middle_ne {α : Type} (l1 l2 : List α) (x y : α) {i : Nat} (h : i ≠ l1.length) :
    (l1 ++ y :: l2).get? i = (l1 ++ x :: l2).get? i := by
  induction l1 generalizing i with
  | nil =>
    cases i with
    | zero => simp at h
    | succ i => simp
  | cons a l ih =>
    cases i with
    | zero => simp
    | succ i =>
      have : i ≠ l.length := fun e => h (by simp [e])
      simpa using ih this

theorem handOf_eq {c : Client} {i : Nat} {l1 l2 : List WorkerPc} {w : WorkerPc}
    (e : c.ws = l1 ++ w :: l2) (hl : l1.length = i) : c.handOf i = w.hand := by
  unfold Client.handOf
  rw [e, ← hl, get?_middle]

theorem handOf_ne {c c1 : Client} {i : Nat} {l1 l2 : List WorkerPc} {w w1 : WorkerPc}
    (e : c.ws = l1 ++ w :: l2) (e1 : c1.ws = l1 ++ w1 :: l2) (hl : i ≠ l1.length) :
    c1.handOf i = c.handOf i := by
  unfold Client.handOf
  rw [e, e1, get?_middle_ne l1 l2 w w1 hl]

theorem handOf_congr {c c1 : Client} (i : Nat) (e : c1.ws = c.ws) :
    c1.handOf i = c.handOf i := by
  unfold Client.handOf
  rw [e]

/-- One step seen from worker `i`: the calls it makes together with what it
holds afterwards are what it held before together with what it takes off the
channel. -/
theorem step_view (i : Nat) {c c1 : Client} {a : Action} (h : step c a = some c1) :
    (if a.byWorker i then c1.calls.drop c.calls.length else []) ++ (c1.handOf i).map callOf =
      (c.handOf i).map callOf ++
        (if a.byWorker i then c.points.take (c.points.length - c1.points.length) else []).map
          callOf := by
  cases a with
  | Send key value now =>
    obtain ⟨h1, -, -, -⟩ := chansend_frame h
    simp [Action.byWorker, handOf_congr i h1]
  | SendId id value now =>
    obtain ⟨h1, -, -, -⟩ := chansend_frame h
    simp [Action.byWorker, handOf_congr i h1]
  | setDebug b =>
    obtain ⟨-, h2, -⟩ := step_frame h rfl (by simp)
    simp [Action.byWorker, handOf_congr i h2]
  | Finish =>
    obtain ⟨-, h2, -⟩ := step_frame h rfl (by simp)
    simp [Action.byWorker, handOf_congr i h2]
  | timeout =>
    obtain ⟨-, h2, -⟩ := step_frame h rfl (by simp)
    simp [Action.byWorker, handOf_congr i h2]
  | closer =>
    obtain ⟨-, h2, -⟩ := step_frame h rfl (by simp)
    simp [Action.byWorker, handOf_congr i h2]
  | worker j err =>
    obtain ⟨l1, w, w1, l2, e, hl, e1, hcase⟩ := worker_obs h
    by_cases hji : j = i
    · subst hji
      rw [handOf_eq e hl, handOf_eq e1 hl]
      rcases hcase with ⟨hw, hw1, hp, hcalls⟩ | ⟨hw, p, hw1, hp, hcalls⟩ | ⟨p, hw, hw1, hp, hcalls⟩
      · simp [Action.byWorker, hw, hw1, hp, hcalls]
      · simp [Action.byWorker, hw, hw1, hp, hcalls]
      · simp [Action.byWorker, hw, hw1, hp, hcalls]
    · have hne : i ≠ l1.length := fun e => hji (by rw [hl] at e; exact e.symm)
      rw [handOf_ne e e1 hne]
      simp [Action.byWorker, hji]

/-- Along an execution from any state, worker `i` makes one call for each point
it held at the start or has received, in that order, except for the point it
still holds. -/
theorem view_run (i : Nat) {c0 c : Client} {tr : List Action} (h : run c0 tr = some c) :
    attempted i c0 tr ++ (c.handOf i).map callOf =
      (c0.handOf i).map callOf ++ (received i c0 tr).map callOf := by
  induction tr generalizing c0 with
  | nil =>
    simp only [run, Option.some.injEq] at h
    subst h
    simp [attempted, received]
  | cons a tr ih =>
    simp only [run] at h
    cases hs : step c0 a with
    | none => simp [hs] at h
    | some c1 =>
      rw [hs] at h
      simp only [Option.some_bind] at h
      have h1 := ih h
      have h2 := step_view i hs
      simp only [attempted, received, hs, List.append_assoc, List.map_append]
      rw [h1, ← List.append_assoc, h2, List.append_assoc]

theorem handOf_init (n cap i : Nat) : (newClientWith n cap).handOf i = [] := by
  unfold Client.handOf newClientWith
  simp only
  cases hg : (List.replicate n WorkerPc.spawned).get? i with
  | none => rfl
  | some w =>
    have hm : w ∈ List.replicate n WorkerPc.spawned := List.get?_mem hg
    rw [List.eq_of_mem_replicate hm]
    rfl

/-- A worker step never adds to the channel. -/
theorem worker_suffix {c c1 : Client} {i : Nat} {err : error} (h : c.worker i err = some c1) :
    c1.points <:+ c.points := by
  obtain ⟨l1, w, w1, l2, -, -, -, hcase⟩ := worker_obs h
  rcases hcase with ⟨-, -, hp, -⟩ | ⟨-, p, -, hp, -⟩ | ⟨p, -, -, hp, -⟩
  · rw [hp]
  · rw [hp]; exact List.suffix_cons p _
  · rw [hp]

/-! ## After `Finish` has returned `true` -/

/-- The channel is closed from the `close(c.points)` of the goroutine of
`Finish` on, and `Finish` returns `true` only through that goroutine. -/
theorem closed_inv {n cap : Nat} {tr : List Action} {c : Client}
    (h : run (newClientWith n cap) tr = some c) (hc : c.crashed = false) :
    c.closed = c.closer.hasClosed ∧
      (c.caller = FinishPc.returned true → c.closer = CloserPc.exited) := by
  refine reach_induction
    (P := fun _ c => c.closed = c.closer.hasClosed ∧
      (c.caller = FinishPc.returned true → c.closer = CloserPc.exited))
    ?_ ?_ tr c h hc
  · simp [newClientWith, CloserPc.hasClosed]
  · intro tr c a c1 _ hcr hP hs hc1
    obtain ⟨hP1, hP2⟩ := hP
    cases a with
    | Send key value now =>
      simp only [step, Client.Send, Client.chansend, hcr, Bool.false_eq_true, if_false] at hs
      split_ifs at hs <;> simp only [Option.some.injEq] at hs <;> subst hs <;>
        exact ⟨hP1, hP2⟩
    | SendId id value now =>
      simp only [step, Client.SendId, Client.chansend, hcr, Bool.false_eq_true, if_false] at hs
      split_ifs at hs <;> simp only [Option.some.injEq] at hs <;> subst hs <;>
        exact ⟨hP1, hP2⟩
    | setDebug b =>
      simp only [step, Client.setDebug, hcr, Bool.false_eq_true, if_false,
        Option.some.injEq] at hs
      subst hs; exact ⟨hP1, hP2⟩
    | Finish =>
      simp only [step, Client.Finish, hcr, Bool.false_eq_true, if_false] at hs
      cases hcl : c.closer <;> rw [hcl] at hs <;> simp only [Option.some.injEq] at hs <;>
        try contradiction
      subst hs
      rw [hcl] at hP1
      exact ⟨by simpa [CloserPc.hasClosed] using hP1, by simp⟩
    | timeout =>
      simp only [step, Client.finishTimeout, hcr, Bool.false_eq_true, if_false] at hs
      cases hcl : c.caller <;> rw [hcl] at hs <;> simp only [Option.some.injEq] at hs <;>
        try contradiction
      subst hs
      exact ⟨hP1, by simp⟩
    | closer =>
      simp only [step, Client.finishGo, hcr, Bool.false_eq_true, if_false] at hs
      cases hcl : c.closer <;> rw [hcl] at hs hP1 hP2 <;> simp only at hs <;>
        try contradiction
      · by_cases hcd : c.closed = true
        · rw [if_pos hcd] at hs
          simp only [Option.some.injEq] at hs; subst hs; simp at hc1
        · rw [if_neg hcd] at hs
          simp only [Option.some.injEq] at hs; subst hs
          exact ⟨rfl, by simpa using hP2⟩
      · by_cases hwg : c.wg.counter = 0
        · rw [if_pos hwg] at hs
          simp only [Option.some.injEq] at hs; subst hs
          exact ⟨by simpa [CloserPc.hasClosed] using hP1, by simpa using hP2⟩
        · rw [if_neg hwg] at hs
          simp only [Option.some.injEq] at hs; subst hs
          exact ⟨by simpa [CloserPc.hasClosed] using hP1, by simpa using hP2⟩
      · by_cases hse : c.wg.sema = 0
        · rw [if_pos hse] at hs; contradiction
        · rw [if_neg hse] at hs
          by_cases hz : c.wg.counter ≠ 0 ∨ c.wg.waiters ≠ 0
          · rw [if_pos hz] at hs
            simp only [Option.some.injEq] at hs; subst hs; simp at hc1
          · rw [if_neg hz] at hs
            simp only [Option.some.injEq] at hs; subst hs
            exact ⟨by simpa [CloserPc.hasClosed] using hP1, by simpa using hP2⟩
      · cases hca : c.caller <;> rw [hca] at hs <;> simp only [Option.some.injEq] at hs <;>
          try contradiction
        subst hs
        exact ⟨by simpa [CloserPc.hasClosed] using hP1, by simp⟩
    | worker i err =>
      have hfr : c1.closed = c.closed ∧ c1.closer = c.closer ∧ c1.caller = c.caller := by
        have hn : ¬ c.crashed = true := by simp [hcr]
        rw [step, Client.worker, if_neg hn] at hs
        cases hw : c.ws.get? i with
        | none => rw [hw] at hs; simp at hs
        | some w =>
          rw [hw] at hs
          cases w with
          | spawned =>
            dsimp only at hs
            cases hA : c.wg.Add 1 <;> rw [hA] at hs <;> dsimp only at hs <;>
              simp only [Option.some.injEq] at hs <;> subst hs <;> simp
          | receiving =>
            dsimp only at hs
            obtain hp | ⟨p, rest, hp⟩ : c.points = [] ∨ ∃ p rest, c.points = p :: rest := by
              cases c.points <;> simp
            · rw [hp] at hs
              dsimp only at hs
              split_ifs at hs
              simp only [Option.some.injEq] at hs; subst hs; simp
            · rw [hp] at hs
              simp only [Option.some.injEq] at hs; subst hs; simp
          | sending p =>
            simp only [Option.some.injEq] at hs; subst hs
            rw [send_frame]; simp
          | returning =>
            dsimp only at hs
            cases hA : c.wg.Add (-1) <;> rw [hA] at hs <;> dsimp only at hs <;>
              simp only [Option.some.injEq] at hs <;> subst hs <;> simp
          | releasing w last =>
            dsimp only at hs
            cases hR : c.wg.release w <;> rw [hR] at hs <;> dsimp only at hs <;>
              simp only [Option.some.injEq] at hs <;> subst hs <;> simp
          | exited => simp at hs
      obtain ⟨h1, h2, h3⟩ := hfr
      rw [h1, h2, h3]
      exact ⟨hP1, hP2⟩

/-- Once `Finish` has returned `true`, every submission panics and leaves the
channel as it is. -/
theorem chansend_after_true {n cap : Nat} {tr : List Action} {c : Client}
    (h : run (newClientWith n cap) tr = some c) (hc : c.crashed = false)
    (hret : c.caller = FinishPc.returned true) (p : point) :
    c.chansend p = some { c with crashed := true } := by
  obtain ⟨h1, h2⟩ := closed_inv h hc
  have hcl : c.closed = true := by
    rw [h1, h2 hret]; rfl
  unfold Client.chansend
  rw [if_neg (by simp [hc]), if_pos hcl]

/-! ## The claims -/

/-- C1.  The client of the source, one point submitted and `Finish` called with
the timer never firing.  Worker 0 executes `c.wg.Add(1)` before the goroutine
of `Finish` reaches `c.wg.Wait()`, which therefore goes to sleep; worker 0
writes the point and ends, its `c.wg.Done()` bringing the counter to zero.
If worker 1 then executes its `c.wg.Add(1)` before the sleeper has woken up,
the wake-up panics; if it executes it before worker 0 has woken the sleeper,
the `Add` itself panics.  Either way the process dies with the caller still in
the `select`: `Finish` does not return `true`, it does not return.  And when
the goroutine of `Finish` runs before any worker has executed `c.wg.Add(1)`,
`Finish` returns `true` with none of the two submitted points written. -/
theorem Finish_panics_when_worker_starts_late :
    (run (NewClient "k" "s") reuseTrace).map
        (fun c => (c.crashed, c.caller, c.wg.counter, c.ws)) =
      some (true, FinishPc.selecting, 1,
        [WorkerPc.exited, WorkerPc.receiving, WorkerPc.spawned]) ∧
    (run (NewClient "k" "s") misuseTrace).map
        (fun c => (c.crashed, c.caller, c.wg.counter, c.wg.waiters, c.ws)) =
      some (true, FinishPc.selecting, 0, 1,
        [WorkerPc.releasing 1 true, WorkerPc.spawned, WorkerPc.spawned]) ∧
    (run (NewClient "k" "s") unsentTrace).map
        (fun c => (c.crashed, c.caller, c.calls, c.points.length)) =
      some (false, FinishPc.returned true, [], 2) ∧
    Action.timeout ∉ reuseTrace ∧ Action.timeout ∉ misuseTrace ∧
    Action.timeout ∉ unsentTrace :=
  ⟨by decide, by decide, by decide, by decide, by decide, by decide⟩

/-- C2.  The client of the source, one point submitted, `Finish` called, and
the goroutine of `Finish` scheduled before any worker has executed
`c.wg.Add(1)`: `Finish` returns `true` while the point is still in the channel,
the backend has received nothing and no worker has ended, or even started. -/
theorem Finish_true_with_point_unsent :
    (run (NewClient "k" "s") earlyTrace).map
        (fun c => (c.caller, c.points, c.calls, c.ws, c.crashed)) =
      some (FinishPc.returned true, [{ id := "", key := "a", time := 0, value := 1 }], [],
        [WorkerPc.spawned, WorkerPc.spawned, WorkerPc.spawned], false) := by
  decide

/-- C3.  For every key, value and instant, `Send` puts on the channel a point
whose key is the given key and whose id is empty, and `send` answers that
point with one call `WriteKey` for that key, whatever the backend returns. -/
theorem Send_writes_by_key (key : String) (value : float64) (now : Time) :
    ∃ p : point, (∀ c : Client, c.Send key value now = c.chansend p) ∧
      p.key = key ∧ p.id = "" ∧
      ∀ (c : Client) (err : error),
        (c.send p err).calls = c.calls ++ [Call.WriteKey key [{ Ts := now, V := value }]] := by
  refine ⟨{ key := key, time := now, value := value }, fun c => rfl, rfl, rfl, ?_⟩
  intro c err
  rw [send_calls]; simp [callOf]

/-- C4, as the code has it.  For every non-empty id, every value and instant,
`SendId` puts on the channel a point whose id is the given id and whose key is
empty, and `send` answers that point with one call `WriteId` for that id,
whatever the backend returns. -/
theorem SendId_writes_by_id (id : String) (value : float64) (now : Time) (hid : id ≠ "") :
    ∃ p : point, (∀ c : Client, c.SendId id value now = c.chansend p) ∧
      p.id = id ∧ p.key = "" ∧
      ∀ (c : Client) (err : error),
        (c.send p err).calls = c.calls ++ [Call.WriteId id [{ Ts := now, V := value }]] := by
  refine ⟨{ id := id, time := now, value := value }, fun c => rfl, rfl, rfl, ?_⟩
  intro c err
  rw [send_calls]; simp [callOf, hid]

theorem SendId_writes_by_id_witness :
    ∃ p : point, (∀ c : Client, c.SendId "xyz" 2 0 = c.chansend p) ∧
      p.id = "xyz" ∧ p.key = "" ∧
      ∀ (c : Client) (err : error),
        (c.send p err).calls = c.calls ++ [Call.WriteId "xyz" [{ Ts := 0, V := 2 }]] :=
  SendId_writes_by_id "xyz" 2 0 (by decide)

/-- C4 fails for the empty id: the point that `SendId` submits with the empty
id reaches the backend as a call `WriteKey`. -/
theorem SendId_empty_writes_by_key :
    (run (NewClient "k" "s")
        [Action.SendId "" 2 0, Action.worker 0 none, Action.worker 0 none,
          Action.worker 0 none]).map Client.calls =
      some [Call.WriteKey "" [{ Ts := 0, V := 2 }]] := by
  decide

/-- C5, as the code has it.  The point `Send` puts on the channel has an empty
id and the point `SendId` puts on the channel has an empty key, so never both
are set; and when the given key or id is not empty, exactly one of the two
fields is set.  An accepted submission appends that point to the channel. -/
theorem point_key_or_id (name : String) (value : float64) (now : Time) :
    ∃ p q : point,
      (∀ c : Client, c.Send name value now = c.chansend p) ∧
      (∀ c : Client, c.SendId name value now = c.chansend q) ∧
      (∀ (r : point) (c c1 : Client), c.chansend r = some c1 → c1.crashed = false →
        c1.points = c.points ++ [r]) ∧
      p.id = "" ∧ q.key = "" ∧
      (name ≠ "" → p.key ≠ "" ∧ q.id ≠ "") := by
  refine ⟨{ key := name, time := now, value := value }, { id := name, time := now, value := value },
    fun c => rfl, fun c => rfl, ?_, rfl, rfl, fun h => ⟨h, h⟩⟩
  intro r c c1 h hc1
  exact (chansend_frame h).2.2.2 hc1

theorem point_key_or_id_witness :
    ∃ p q : point,
      (∀ c : Client, c.Send "abc" 1 0 = c.chansend p) ∧
      (∀ c : Client, c.SendId "abc" 1 0 = c.chansend q) ∧
      (p.id = "" ∧ p.key ≠ "") ∧ (q.key = "" ∧ q.id ≠ "") := by
  obtain ⟨p, q, h1, h2, -, h4, h5, h6⟩ := point_key_or_id "abc" 1 0
  exact ⟨p, q, h1, h2, ⟨h4, (h6 (by decide)).1⟩, ⟨h5, (h6 (by decide)).2⟩⟩

/-- C5 fails for the empty key: the point that `Send` puts on the channel with
the empty key has neither its id nor its key set. -/
theorem Send_empty_sets_neither :
    (run (NewClient "k" "s") [Action.Send "" 1 0]).map
        (fun c => c.points.map (fun p => (p.id, p.key))) = some [("", "")] := by
  decide

/-- A worker that holds a point can always make the call for it, and is back
at the channel afterwards, whatever the backend answers. -/
theorem worker_writes {c : Client} {i : Nat} {p : point} (hc : c.crashed = false)
    (hh : c.handOf i = [p]) (err : error) :
    ∃ c1, c.worker i err = some c1 ∧ c1.calls = c.calls ++ [callOf p] ∧
      c1.ws.get? i = some WorkerPc.receiving ∧ c1.points = c.points := by
  unfold Client.handOf at hh
  cases hg : c.ws.get? i with
  | none => rw [hg] at hh; simp at hh
  | some w =>
    rw [hg] at hh
    cases w with
    | sending q =>
      simp only [WorkerPc.hand, List.cons.injEq, and_true] at hh
      subst hh
      obtain ⟨l1, l2, e, hl, hset⟩ := get?_split hg
      refine ⟨{ c.send q err with ws := c.ws.set i WorkerPc.receiving }, ?_, ?_, ?_, ?_⟩
      · rw [Client.worker, if_neg (by simp [hc]), hg]
      · exact send_calls c q err
      · show (c.ws.set i WorkerPc.receiving).get? i = some WorkerPc.receiving
        rw [hset, ← hl, get?_middle]
      · show (c.send q err).points = c.points
        rw [send_frame]
    | spawned | receiving | returning | releasing _ _ | exited => simp [WorkerPc.hand] at hh

/-- C6.  Take any execution from a new client, with any number of workers, any
schedule and any backend outcomes, and any worker `i`.  The calls worker `i`
has made, followed by the call for the point it holds (if it holds one), are
exactly the calls for the points it has taken off the channel, one each and in
the order it took them.  A worker step never adds to the channel; the state of
the workers after a step does not depend on the backend outcome; and a worker
that holds a point makes the call for it at its next step and is back at the
channel afterwards, whether the call fails or not. -/
theorem worker_one_write_per_point (n cap i : Nat) (tr : List Action) (c : Client)
    (hrun : run (newClientWith n cap) tr = some c) :
    attempted i (newClientWith n cap) tr ++ (c.handOf i).map callOf =
        (received i (newClientWith n cap) tr).map callOf ∧
    (∀ (d d1 : Client) (err : error), d.worker i err = some d1 → d1.points <:+ d.points) ∧
    (∀ (d : Client) (err : error),
        (d.worker i err).map Client.ws = (d.worker i none).map Client.ws) ∧
    (∀ p : point, c.handOf i = [p] → c.crashed = false → ∀ err : error,
        ∃ c1, c.worker i err = some c1 ∧ c1.calls = c.calls ++ [callOf p] ∧
          c1.ws.get? i = some WorkerPc.receiving ∧ c1.points = c.points) := by
  refine ⟨?_, ?_, ?_, ?_⟩
  · have := view_run i hrun
    rw [handOf_init] at this
    simpa using this
  · intro d d1 err h
    exact worker_suffix h
  · intro d err
    have := congrArg (Option.map Client.ws) (worker_err_irrelevant d i err)
    simpa [Option.map_map, Function.comp_def] using this
  · intro p hh hc err
    exact worker_writes hc hh err

theorem worker_one_write_per_point_witness :
    run (newClientWith 1 2) fifoTrace = some fifoFinal ∧
    attempted 0 (newClientWith 1 2) fifoTrace ++ (fifoFinal.handOf 0).map callOf =
        (received 0 (newClientWith 1 2) fifoTrace).map callOf ∧
    attempted 0 (newClientWith 1 2) fifoTrace =
        [Call.WriteKey "a" [{ Ts := 0, V := 1 }], Call.WriteId "b" [{ Ts := 1, V := 2 }]] :=
  ⟨by decide, (worker_one_write_per_point 1 2 0 fifoTrace fifoFinal (by decide)).1, by decide⟩

/-- C7.  The client of the source, `Finish` called, and the timer of `Finish`
firing before its goroutine has closed the channel: `Finish` returns `false`,
and the `Send` that follows does not panic and puts its point on the
channel. -/
theorem Send_after_timed_out_Finish :
    (run (NewClient "k" "s") [Action.Finish, Action.timeout]).map
        (fun c => (c.caller, c.points, c.closed)) =
      some (FinishPc.returned false, [], false) ∧
    (run (NewClient "k" "s") lateSendTrace).map
        (fun c => (c.caller, c.points, c.crashed)) =
      some (FinishPc.returned false, [{ id := "", key := "a", time := 0, value := 1 }],
        false) := by
  decide

/-- C8.  With one worker, in every state an execution reaches without a panic,
the calls the backend has received, followed by the calls for the point the
worker holds and for the points in the channel, are the calls for the
submitted points in the order of submission: the backend receives the calls in
exactly that order. -/
theorem single_worker_fifo (cap : Nat) (tr : List Action) (c : Client)
    (hrun : run (newClientWith 1 cap) tr = some c) (hc : c.crashed = false) :
    c.calls ++ c.pending.map callOf = (submitted tr).map callOf ∧
    c.calls <+: (submitted tr).map callOf := by
  have h := (fifo_inv hrun hc).2
  exact ⟨h, ⟨_, h⟩⟩

theorem single_worker_fifo_witness :
    fifoFinal.calls ++ fifoFinal.pending.map callOf = (submitted fifoTrace).map callOf ∧
    fifoFinal.calls <+: (submitted fifoTrace).map callOf :=
  single_worker_fifo 2 fifoTrace fifoFinal (by decide) (by decide)

/-- C9.  For every point, `send` adds exactly one call to what the backend
has received, and the data of that call is the single pair of the time and
the value of the point; the time and value of the point that `Send` or
`SendId` puts on the channel are the instant of the submission and the value
given. -/
theorem send_single_pair (c : Client) (p : point) (err : error) :
    (∃ call : Call, (c.send p err).calls = c.calls ++ [call] ∧
        call.data = [{ Ts := p.time, V := p.value }]) ∧
    (∀ (name : String) (value : float64) (now : Time), ∃ q : point,
        (∀ d : Client, d.Send name value now = d.chansend q) ∧
        q.time = now ∧ q.value = value) ∧
    (∀ (name : String) (value : float64) (now : Time), ∃ q : point,
        (∀ d : Client, d.SendId name value now = d.chansend q) ∧
        q.time = now ∧ q.value = value) := by
  refine ⟨⟨callOf p, send_calls c p err, ?_⟩, ?_, ?_⟩
  · unfold callOf
    split_ifs <;> rfl
  · intro name value now
    exact ⟨{ key := name, time := now, value := value }, fun d => rfl, rfl, rfl⟩
  · intro name value now
    exact ⟨{ id := name, time := now, value := value }, fun d => rfl, rfl, rfl⟩

/-- C10.  For every point and every backend outcome, `send` adds to the log
exactly one line when `Debug` is set and the write returned an error, and
nothing otherwise.  Apart from the log, the state after `send`, and after the
worker step that calls it, is the same whether the write failed or not: the
error goes nowhere else. -/
theorem send_logs_iff_debug_and_error (c : Client) (p : point) (err : error) :
    (c.send p err).logs =
        c.logs ++ (match c.Debug, err with
          | true, some msg => [logLine msg]
          | _, _ => []) ∧
    { c.send p err with logs := [] } = { c.send p none with logs := [] } ∧
    ∀ i : Nat, (c.worker i err).map (fun d => { d with logs := [] }) =
      (c.worker i none).map (fun d => { d with logs := [] }) := by
  refine ⟨?_, send_err_irrelevant c p err, fun i => worker_err_irrelevant c i err⟩
  rw [send_logs]
  cases c.Debug <;> cases err <;> simp

end Tempodb
